import Mathlib

/-!
Verification of the noir dataflow engine's execution substrate.

This file gives a shallow embedding, in Lean, of the core stream-protocol
components of the repository:

* `StreamElement` — the control/data envelope (src/operator/mod.rs);
* `FoldBatch` — the batched stateful fold operator (src/operator/fold_batch.rs),
  embedded as an explicit state machine `FoldState` with `consumeLoop`,
  `flushFB`, `nextFB` and a fuel-driven `runFB` driver;
* `SideReceiver` / `BinaryStartReceiver` — the two-upstream merge with a
  cache side (src/operator/start/binary.rs);
* `ContentWindowManager` — the gap-defined window state machine
  (src/operator/window/descr/content_defined.rs);
* `NoirType` arithmetic (src/data_type/noir_type_op.rs);
* the single-field CSV coercion (src/operator/source/csv_fast.rs).

Rust `panic!` sites are modelled by `Option`-valued functions returning
`none`; blocking receives are modelled by scripted input queues, with `none`
meaning the code would block or fail.  Machine integers are modelled as `Int`
with explicit wrap-around where the width matters.  Wall-clock instants are
modelled as natural numbers.
-/

set_option maxRecDepth 4096

/-- The stream-element envelope flowing between operators.  Timestamps are
`i64` durations in the source; modelled as `Int`. -/
inductive StreamElement (α : Type) where
  | Item : α → StreamElement α
  | Timestamped : α → Int → StreamElement α
  | Watermark : Int → StreamElement α
  | FlushBatch : StreamElement α
  | FlushAndRestart : StreamElement α
  | Terminate : StreamElement α
deriving DecidableEq, Repr

namespace StreamElement

/-- `StreamElement::map`: apply a function to the payload, keeping control
variants unchanged. -/
def map (f : α → β) : StreamElement α → StreamElement β
  | .Item x => .Item (f x)
  | .Timestamped x ts => .Timestamped (f x) ts
  | .Watermark ts => .Watermark ts
  | .FlushBatch => .FlushBatch
  | .FlushAndRestart => .FlushAndRestart
  | .Terminate => .Terminate

end StreamElement

/-- The control-sequence grammar of §3 of the spec, per channel:
`((Item | Timestamped | Watermark | FlushBatch)* FlushAndRestart)+ Terminate`.
A sequence conforms iff it ends with `FlushAndRestart, Terminate` and
contains no other `Terminate`. -/
def conformsControlGrammar : List (StreamElement α) → Bool := fun l =>
  match l.reverse with
  | .Terminate :: .FlushAndRestart :: rest =>
      rest.all fun e => match e with | .Terminate => false | _ => true
  | _ => false

/-! ## FoldBatch (src/operator/fold_batch.rs)

The operator state.  The upstream operator chain is modelled by the list of
elements it will deliver, consumed from the front; `next` blocking on an
exhausted upstream is modelled by returning `none`. -/

/-- Configuration of a `FoldBatch` operator: the fold function, the initial
accumulator prototype and the batch size. -/
structure FoldCfg (α β : Type) where
  fold : β → List α → β
  init : β
  batch_size : Nat

/-- Mutable state of `FoldBatch` between `next()` calls. -/
structure FoldState (α β : Type) where
  accumulator : Option β
  timestamp : Option Int
  max_watermark : Option Int
  received_end : Bool
  received_end_iter : Bool
  store : Option (List α)

/-- The initial `FoldBatch` state, as built by `FoldBatch::new`. -/
def foldInit (α β : Type) : FoldState α β :=
  { accumulator := none, timestamp := none, max_watermark := none,
    received_end := false, received_end_iter := false, store := none }

/-- Push one item: lazily initialize the store, append the item, and when the
store reaches `batch_size` fold it into the accumulator and clear the store.
This is the shared body of the `Item` and `Timestamped` arms of
`FoldBatch::next`, acting on the `(accumulator, store)` pair. -/
def pushItem (cfg : FoldCfg α β) (acc : β) (st : Option (List α)) (x : α) :
    β × Option (List α) :=
  let vs := st.getD [] ++ [x]
  if vs.length = cfg.batch_size then (cfg.fold acc vs, none) else (acc, some vs)

/-- The `Item`/`Timestamped` arm of `FoldBatch::next` on the whole state. -/
def handleItem (cfg : FoldCfg α β) (s : FoldState α β) (x : α) : FoldState α β :=
  let p := pushItem cfg (s.accumulator.getD cfg.init) s.store x
  { s with accumulator := some p.1, store := p.2 }

/-- One arm of the `match self.prev.next()` in `FoldBatch::next`. -/
def stepElem (cfg : FoldCfg α β) (s : FoldState α β) :
    StreamElement α → FoldState α β
  | .Terminate => { s with received_end := true }
  | .FlushAndRestart => { s with received_end := true, received_end_iter := true }
  | .Watermark ts =>
      { s with max_watermark := some (max (s.max_watermark.getD ts) ts) }
  | .Item x => handleItem cfg s x
  | .Timestamped x ts =>
      handleItem cfg { s with timestamp := some (max (s.timestamp.getD ts) ts) } x
  | .FlushBatch => s

/-- The `while !self.received_end` loop of `FoldBatch::next`: consume upstream
elements until an end marker has been seen.  Returns the new state and the
unread remainder of the upstream, or `none` if the upstream list is exhausted
while the loop still wants more (the source would block). -/
def consumeLoop (cfg : FoldCfg α β) : FoldState α β → List (StreamElement α) →
    Option (FoldState α β × List (StreamElement α))
  | s, [] => if s.received_end then some (s, []) else none
  | s, e :: rest =>
    if s.received_end then some (s, e :: rest)
    else consumeLoop cfg (stepElem cfg s e) rest

/-- The flush phase of `FoldBatch::next`, after the consume loop: emit the
pending aggregate, else a pending watermark, else `FlushAndRestart` (resetting
the end flags) if the end was an iteration end, else `Terminate`. -/
def flushFB (cfg : FoldCfg α β) (s : FoldState α β) :
    StreamElement β × FoldState α β :=
  match s.accumulator with
  | some acc0 =>
    let acc := match s.store with
      | some vs => if vs.isEmpty then acc0 else cfg.fold acc0 vs
      | none => acc0
    match s.timestamp with
    | some ts =>
        (.Timestamped acc ts,
         { s with accumulator := none, store := none, timestamp := none })
    | none => (.Item acc, { s with accumulator := none, store := none })
  | none =>
    match s.max_watermark with
    | some ts => (.Watermark ts, { s with max_watermark := none })
    | none =>
      if s.received_end_iter then
        (.FlushAndRestart, { s with received_end_iter := false, received_end := false })
      else (.Terminate, s)

/-- One full `FoldBatch::next()` call against a scripted upstream. -/
def nextFB (cfg : FoldCfg α β) (s : FoldState α β) (inp : List (StreamElement α)) :
    Option (StreamElement β × FoldState α β × List (StreamElement α)) :=
  (consumeLoop cfg s inp).map fun p =>
    let q := flushFB cfg p.1
    (q.1, q.2, p.2)

/-- Drive `FoldBatch::next` in a loop, as the replica worker thread does,
collecting the emitted elements; the loop stops at `Terminate` (which is
included in the output).  `fuel` bounds the number of `next()` calls. -/
def runFB (cfg : FoldCfg α β) : Nat → FoldState α β → List (StreamElement α) →
    List (StreamElement β)
  | 0, _, _ => []
  | fuel + 1, s, inp =>
    match nextFB cfg s inp with
    | none => []
    | some (el, s2, rest) =>
      match el with
      | .Terminate => [.Terminate]
      | e => e :: runFB cfg fuel s2 rest

/-! ## BinaryStartReceiver (src/operator/start/binary.rs) -/

/-- Either-type produced by the two-upstream merge. -/
inductive BinaryElement (L R : Type) where
  | Left : L → BinaryElement L R
  | Right : R → BinaryElement L R
  | LeftEnd : BinaryElement L R
  | RightEnd : BinaryElement L R
deriving DecidableEq, Repr

/-- State of one side of the binary receiver (`SideReceiver` in the source).
The inner `SimpleStartReceiver` is not part of src/; following §4.4 of the
spec it is, for one upstream replica, a FIFO of incoming batches.

Modelled from the spec: the `queue` field stands for the missing
`SimpleStartReceiver` — the scripted sequence of `NetworkMessage` batches the
upstream will deliver, received strictly in order (§4.4); a batch's sender
`Coord` plays no role in the receiver logic and is omitted. -/
structure SideReceiver (Out Item : Type) where
  queue : List (List (StreamElement Out))
  instances : Nat
  missing_flush_and_restart : Nat
  missing_terminate : Nat
  cached : Bool
  cache : List (List (StreamElement Item))
  cache_full : Bool
  cache_pointer : Nat

namespace SideReceiver

/-- `SideReceiver::recv` with no timeout: pop the next scripted batch;
`none` models blocking forever on an exhausted upstream. -/
def recv (s : SideReceiver Out Item) :
    Option (SideReceiver Out Item × List (StreamElement Out)) :=
  match s.queue with
  | [] => none
  | m :: rest => some ({ s with queue := rest }, m)

/-- `SideReceiver::reset`: rearm the per-iteration countdown and, for a cached
side, mark the cache captured and rewind the pointer. -/
def reset (s : SideReceiver Out Item) : SideReceiver Out Item :=
  if s.cached then
    { s with missing_flush_and_restart := s.instances,
             cache_full := true, cache_pointer := 0 }
  else { s with missing_flush_and_restart := s.instances }

/-- `SideReceiver::is_terminated`. -/
def is_terminated (s : SideReceiver Out Item) : Bool := s.missing_terminate == 0

/-- `SideReceiver::is_ended`. -/
def is_ended (s : SideReceiver Out Item) : Bool :=
  if s.cached then s.is_terminated else s.missing_flush_and_restart == 0

/-- `SideReceiver::cache_finished`. -/
def cache_finished (s : SideReceiver Out Item) : Bool :=
  s.cache.length ≤ s.cache_pointer

/-- `SideReceiver::next_cached_item`: advance the pointer, force the
`FlushAndRestart` countdown to zero when the cache is exhausted (replayed
`FlushAndRestart`s are returned verbatim, not counted), and return the batch
the pointer moved past.  The source indexes `cache[pointer - 1]` and would
panic out of range; `select` only calls it when `¬cache_finished`, and the
`getD` default is never reached there. -/
def next_cached_item (s : SideReceiver Out Item) :
    SideReceiver Out Item × List (StreamElement Item) :=
  let p := s.cache_pointer + 1
  let s2 : SideReceiver Out Item :=
    if s.cache.length ≤ p then
      { s with cache_pointer := p, missing_flush_and_restart := 0 }
    else { s with cache_pointer := p }
  (s2, s.cache.getD s.cache_pointer [])

end SideReceiver

/-- One step of the per-element walk in `BinaryStartReceiver::process_side`
(the `flat_map` body), threading the two countdowns through the batch.
Returns the final countdown values and the wrapped output batch.
The source decrements `usize` counters, panicking on underflow in debug
builds; `Nat` truncated subtraction stands in, and theorems that depend on
the counters carry the protocol bound as a hypothesis. -/
def processBatch (cached : Bool) (wrap : Out → θ) (endEl : θ) :
    Nat → Nat → List (StreamElement Out) → Nat × Nat × List (StreamElement θ)
  | mfar, mterm, [] => (mfar, mterm, [])
  | mfar, mterm, item :: rest =>
    let isFar : Bool := match item with | .FlushAndRestart => true | _ => false
    let isTer : Bool := match item with | .Terminate => true | _ => false
    let mfar1 := if isFar then mfar - 1 else mfar
    let pre : List (StreamElement θ) :=
      if isFar && mfar1 == 0 then [.Item endEl] else []
    let mterm1 := if isTer then mterm - 1 else mterm
    let mid : List (StreamElement θ) :=
      if !cached || !isTer then [item.map wrap] else []
    let r := processBatch cached wrap endEl mfar1 mterm1 rest
    (r.1, r.2.1, pre ++ mid ++ r.2.2)

/-- `BinaryStartReceiver::process_side`: wrap a batch pulled from one side,
update the side's countdowns, and append the wrapped batch to the cache on a
cached side (advancing the pointer past it, since the elements go out live). -/
def process_side (side : SideReceiver Out θ) (message : List (StreamElement Out))
    (wrap : Out → θ) (endEl : θ) :
    SideReceiver Out θ × List (StreamElement θ) :=
  let r := processBatch side.cached wrap endEl
    side.missing_flush_and_restart side.missing_terminate message
  let side2 := { side with missing_flush_and_restart := r.1,
                           missing_terminate := r.2.1 }
  let side3 :=
    if side2.cached then
      { side2 with cache := side2.cache ++ [r.2.2],
                   cache_pointer := side2.cache.length + 1 }
    else side2
  (side3, r.2.2)

/-- The whole two-upstream receiver (`BinaryStartReceiver`). -/
structure BinaryStartReceiver (L R : Type) where
  left : SideReceiver L (BinaryElement L R)
  right : SideReceiver R (BinaryElement L R)
  first_message : Bool

/-- `BinaryStartReceiver::new`: the assertion that at most one side may be
cached is modelled by returning `none` (panic) when both cache flags are set.
Sides start with no upstream wired (`setup` fills the counters). -/
def BinaryStartReceiver.new (L R : Type) (left_cache right_cache : Bool) :
    Option (BinaryStartReceiver L R) :=
  if left_cache && right_cache then none
  else
    some
      { left := { queue := [], instances := 0, missing_flush_and_restart := 0,
                  missing_terminate := 0, cached := left_cache, cache := [],
                  cache_full := false, cache_pointer := 0 },
        right := { queue := [], instances := 0, missing_flush_and_restart := 0,
                   missing_terminate := 0, cached := right_cache, cache := [],
                   cache_full := false, cache_pointer := 0 },
        first_message := false }

/-- `SideReceiver::setup`: wire the upstream (here: its scripted batches) and
arm both countdowns with the replica count. -/
def SideReceiver.setup (s : SideReceiver Out Item) (n : Nat)
    (queue : List (List (StreamElement Out))) : SideReceiver Out Item :=
  { s with queue := queue, instances := n,
           missing_flush_and_restart := n, missing_terminate := n }

/-- Pull one batch from the left side and process it.  `none` models a
blocked/failed receive. -/
def pullLeft (b : BinaryStartReceiver L R) (oracle : List Bool) :
    Option (BinaryStartReceiver L R × List Bool ×
            List (StreamElement (BinaryElement L R))) :=
  (b.left.recv).map fun p =>
    let q := process_side p.1 p.2 BinaryElement.Left BinaryElement.LeftEnd
    ({ b with left := q.1 }, oracle, q.2)

/-- Pull one batch from the right side and process it. -/
def pullRight (b : BinaryStartReceiver L R) (oracle : List Bool) :
    Option (BinaryStartReceiver L R × List Bool ×
            List (StreamElement (BinaryElement L R))) :=
  (b.right.recv).map fun p =>
    let q := process_side p.1 p.2 BinaryElement.Right BinaryElement.RightEnd
    ({ b with right := q.1 }, oracle, q.2)

/-- The final arm of `select`: neither side is ended, so select across both
channels; if one side is already terminated, degrade to a single-side recv.
The two-way channel select has an unspecified (eventually fair) tie-break;
the `oracle` list scripts those tie-breaks: `true` picks the left side. -/
def bothAlive (b : BinaryStartReceiver L R) (oracle : List Bool) :
    Option (BinaryStartReceiver L R × List Bool ×
            List (StreamElement (BinaryElement L R))) :=
  match b.left.is_terminated, b.right.is_terminated with
  | true, true => none
  | true, false => pullRight b oracle
  | false, true => pullLeft b oracle
  | false, false =>
    match oracle with
    | [] => none
    | c :: oracle2 => if c then pullLeft b oracle2 else pullRight b oracle2

/-- The cache-aware probing order of `select` (steps 3–6 of the policy),
after the iteration-reset step has been applied. -/
def probeSides (b : BinaryStartReceiver L R) (oracle : List Bool) :
    Option (BinaryStartReceiver L R × List Bool ×
            List (StreamElement (BinaryElement L R))) :=
  if b.first_message && (b.left.cached || b.right.cached) then
    if b.left.cached then pullRight { b with first_message := false } oracle
    else pullLeft { b with first_message := false } oracle
  else if b.left.cached && b.left.cache_full && !b.left.cache_finished then
    some ({ b with left := b.left.next_cached_item.1 }, oracle,
          b.left.next_cached_item.2)
  else if b.right.cached && b.right.cache_full && !b.right.cache_finished then
    some ({ b with right := b.right.next_cached_item.1 }, oracle,
          b.right.next_cached_item.2)
  else if b.left.is_ended then pullRight b oracle
  else if b.right.is_ended then pullLeft b oracle
  else bothAlive b oracle

/-- The iteration-reset step of `select`: when both sides are ended and both
caches are drained, rearm both sides and mark the next message as the first
of a new iteration. -/
def resetIfEnded (b : BinaryStartReceiver L R) : BinaryStartReceiver L R :=
  if b.left.is_ended && b.right.is_ended &&
     b.left.cache_finished && b.right.cache_finished then
    { left := b.left.reset, right := b.right.reset, first_message := true }
  else b

/-- The `num_terminates` computation at the top of
`BinaryStartReceiver::select`: how many `Terminate` elements must be
synthesized for the cached side once both sides have terminated.  `select`
itself (blocking path, `timeout = None`) then synthesizes them, or resets at
an iteration boundary and probes the sides; `none` models the
`Disconnected`/blocked outcomes. -/
def numTerminates (b : BinaryStartReceiver L R) : Nat :=
  if b.left.cached then b.left.instances
  else if b.right.cached then b.right.instances
  else 0

/-- `BinaryStartReceiver::select`, continued (see `numTerminates`). -/
def select (b : BinaryStartReceiver L R) (oracle : List Bool) :
    Option (BinaryStartReceiver L R × List Bool ×
            List (StreamElement (BinaryElement L R))) :=
  if b.left.is_terminated && b.right.is_terminated && 0 < numTerminates b then
    some (b, oracle, List.replicate (numTerminates b) .Terminate)
  else probeSides (resetIfEnded b) oracle

/-- Drive `select` for `fuel` calls, collecting the returned batches in order
(the Start operator flattens them downstream). -/
def runBinary : Nat → BinaryStartReceiver L R → List Bool →
    List (List (StreamElement (BinaryElement L R)))
  | 0, _, _ => []
  | fuel + 1, b, oracle =>
    match select b oracle with
    | none => []
    | some (b2, o2, msg) => msg :: runBinary fuel b2 o2

/-- Modelled from the spec: the `FlushAndRestart`/`Terminate` synchronization
of the Start operator that wraps the receiver is not part of src/.  Per §4.4,
a `FlushAndRestart` is forwarded downstream only after all `total` upstream
replicas have sent theirs, and likewise for `Terminate` (which is the last
element forwarded); other elements pass through in order. -/
def startSync (total : Nat) : Nat → Nat → List (StreamElement θ) →
    List (StreamElement θ)
  | _, _, [] => []
  | far, term, e :: rest =>
    match e with
    | .FlushAndRestart =>
      if far + 1 == total then .FlushAndRestart :: startSync total 0 term rest
      else startSync total (far + 1) term rest
    | .Terminate =>
      if term + 1 == total then [.Terminate]
      else startSync total far (term + 1) rest
    | x => x :: startSync total far term rest

/-! ## ContentWindowManager (src/operator/window/descr/content_defined.rs)

The accumulator contract (`WindowAccumulator`: `process` absorbs an item,
`output` consumes the accumulator) is passed in as plain functions; the
wall-clock `Instant::now()` of each `process` call is passed in as a natural
number `now`.  The source file's `Slot` carries the accumulator and the
instant of the last absorbed element. -/

/-- Result wrapper produced by window managers (only the `Item` variant is
used by the content-defined manager). -/
inductive WindowResult (ε : Type) where
  | Item : ε → WindowResult ε
deriving DecidableEq, Repr

/-- Configuration of a `ContentWindowManager`: the accumulator prototype and
its two operations, and the inactivity gap. -/
structure WinCfg (γ δ ε : Type) where
  init : γ
  procA : γ → δ → γ
  outA : γ → ε
  gap : Nat

/-- `ContentWindowManager::process` at wall-clock instant `now`.  The window
state is `none` (Empty) or `some (acc, last_seen)` (Open).  `Instant`
subtraction `now - last` is `Nat` subtraction; the monotonic clock guarantees
`last ≤ now` in the source. -/
def cwProcess (cfg : WinCfg γ δ ε) (w : Option (γ × Nat)) (now : Nat)
    (el : StreamElement δ) : Option (WindowResult ε) × Option (γ × Nat) :=
  let expired : Bool := match w with
    | some p => decide (cfg.gap < now - p.2)
    | none => false
  let ret : Option (WindowResult ε) :=
    if expired then w.map fun p => WindowResult.Item (cfg.outA p.1) else none
  let w1 := if expired then none else w
  match el with
  | .Item x =>
    let a := (w1.getD (cfg.init, now)).1
    (ret, some (cfg.procA a x, now))
  | .Timestamped x _ =>
    let a := (w1.getD (cfg.init, now)).1
    (ret, some (cfg.procA a x, now))
  | .Terminate =>
    (ret.orElse fun _ => w1.map fun p => WindowResult.Item (cfg.outA p.1), none)
  | .FlushAndRestart =>
    (ret.orElse fun _ => w1.map fun p => WindowResult.Item (cfg.outA p.1), none)
  | _ => (ret, w1)

/-! ## NoirType arithmetic (src/data_type/noir_type_op.rs)

`f32` payloads are kept abstract: the type `F` and the float operations are
parameters, since none of the claims depend on float values.  `i32` values
are `Int` with explicit wrap-around (release-mode overflow semantics). -/

/-- The query-layer scalar type. -/
inductive NoirType (F : Type) where
  | Int32 : Int → NoirType F
  | Float32 : F → NoirType F
  | NaN : NoirType F
  | None : NoirType F
deriving DecidableEq, Repr

/-- `i32` wrap-around of an unbounded integer. -/
def wrap32 (n : Int) : Int := (n + 2 ^ 31) % 2 ^ 32 - 2 ^ 31

namespace NoirType

/-- `NoirType::is_na`. -/
def is_na : NoirType F → Bool
  | .NaN => true
  | .None => true
  | _ => false

/-- Whether the value is a numeric payload (`Int32` or `Float32`). -/
def isNumeric : NoirType F → Bool
  | .Int32 _ => true
  | .Float32 _ => true
  | _ => false

/-- `impl Add<Self> for NoirType` — `fadd` is `f32` addition and `i2f` the
`as f32` cast; the `panic!` arms return `none`. -/
def add (fadd : F → F → F) (i2f : Int → F) :
    NoirType F → NoirType F → Option (NoirType F)
  | .Int32 a, .Int32 b => some (.Int32 (wrap32 (a + b)))
  | .Float32 a, .Float32 b => some (.Float32 (fadd a b))
  | .Float32 a, .Int32 b => some (.Float32 (fadd a (i2f b)))
  | .Int32 a, .Float32 b => some (.Float32 (fadd (i2f a) b))
  | _, _ => none

/-- `impl AddAssign for NoirType`, returning the new left operand; the
`(Int32, Float32)` arm panics ("Convert data to float!"), as do the
NaN/None arms. -/
def addAssign (fadd : F → F → F) (i2f : Int → F) :
    NoirType F → NoirType F → Option (NoirType F)
  | .Int32 a, .Int32 b => some (.Int32 (wrap32 (a + b)))
  | .Float32 a, .Float32 b => some (.Float32 (fadd a b))
  | .Float32 a, .Int32 b => some (.Float32 (fadd a (i2f b)))
  | .Int32 _, .Float32 _ => none
  | _, _ => none

end NoirType

/-! ## Single-field CSV coercion (src/operator/source/csv_fast.rs) -/

/-- Value of a list of decimal digit characters. -/
def digitsVal (cs : List Char) : Nat :=
  cs.foldl (fun a c => a * 10 + (c.toNat - '0'.toNat)) 0

/-- Model of Rust `str::parse::<i32>()`: an optional sign followed by at
least one decimal digit, rejecting anything else and values outside the
`i32` range. -/
def parseI32 (s : String) : Option Int :=
  let p : Int × List Char := match s.data with
    | '+' :: cs => (1, cs)
    | '-' :: cs => (-1, cs)
    | cs => (1, cs)
  if p.2.isEmpty then none
  else if p.2.all Char.isDigit then
    let v : Int := p.1 * (digitsVal p.2 : Int)
    if -(2 ^ 31) ≤ v ∧ v ≤ 2 ^ 31 - 1 then some v else none
  else none

/-- The 1-column branch of `RowCsvSource::handle_record_without_schema`:
empty field → missing sentinel; else try `i32`, then `f32`, else the missing
sentinel.  The `f32` parser is abstract (`parseF32`), as float parsing is out
of scope of the integer model. -/
def handleSingleField (parseF32 : String → Option F) (field : String) :
    NoirType F :=
  if field.isEmpty then .None
  else
    match parseI32 field with
    | some v => .Int32 v
    | none =>
      match parseF32 field with
      | some x => .Float32 x
      | none => .None

/-! ## Concrete scenarios -/

/-- Summing fold over `u8` batches (wrap-around at 256), batch size 4 —
the fold of the `test_fold_without_timestamps` / `test_fold_iter_end`
scenarios. -/
def cfgSumMod4 : FoldCfg Nat Nat :=
  { fold := fun a l => l.foldl (fun x y => (x + y) % 256) a,
    init := 0, batch_size := 4 }

/-- The C1 scenario, left (cached) side after `setup` with one upstream
replica: it delivers `Item 1, Item 2, FlushAndRestart` and then terminates. -/
def c1Left : SideReceiver Nat (BinaryElement Nat Nat) :=
  { queue := [[.Item 1, .Item 2, .FlushAndRestart], [.Terminate]],
    instances := 1, missing_flush_and_restart := 1, missing_terminate := 1,
    cached := true, cache := [], cache_full := false, cache_pointer := 0 }

/-- The C1 scenario, right (non-cached) side after `setup` with one upstream
replica: `Item 10, FlushAndRestart`, then `Item 20, FlushAndRestart`, then
`Terminate`. -/
def c1Right : SideReceiver Nat (BinaryElement Nat Nat) :=
  { queue := [[.Item 10, .FlushAndRestart], [.Item 20, .FlushAndRestart],
              [.Terminate]],
    instances := 1, missing_flush_and_restart := 1, missing_terminate := 1,
    cached := false, cache := [], cache_full := false, cache_pointer := 0 }

/-- The C1 binary receiver: Left cached, Right live. -/
def c1Receiver : BinaryStartReceiver Nat Nat :=
  { left := c1Left, right := c1Right, first_message := false }

/-- Channel-selection schedule for the C1 run: the first two-way selects pick
the left batch, then the right batch (all remaining `select` calls are
forced single-side receives and consume no oracle). -/
def c1Oracle : List Bool := [true, false]

/-- The element stream the downstream block observes in the C1 scenario:
receiver batches flattened in order, then the Start operator's
`FlushAndRestart`/`Terminate` synchronization over the 2 upstream replicas. -/
def binaryPipelineOutput : List (StreamElement (BinaryElement Nat Nat)) :=
  startSync 2 0 0 (runBinary 8 c1Receiver c1Oracle).flatten

/-- The sequence the claim predicts for the C1 scenario. -/
def c1Claimed : List (StreamElement (BinaryElement Nat Nat)) :=
  [.Item (.Left 1), .Item (.Left 2), .Item .LeftEnd,
   .Item (.Right 10), .Item .RightEnd, .FlushAndRestart,
   .Item (.Left 1), .Item (.Left 2), .Item .LeftEnd,
   .Item (.Right 20), .Item .RightEnd, .FlushAndRestart,
   .Terminate]

/-- The sequence the code actually produces for the C1 scenario: in the
second iteration the receiver polls the non-cached (right) side first and
forwards its batch before replaying the cache. -/
def c1Actual : List (StreamElement (BinaryElement Nat Nat)) :=
  [.Item (.Left 1), .Item (.Left 2), .Item .LeftEnd,
   .Item (.Right 10), .Item .RightEnd, .FlushAndRestart,
   .Item (.Right 20), .Item .RightEnd,
   .Item (.Left 1), .Item (.Left 2), .Item .LeftEnd, .FlushAndRestart,
   .Terminate]

/-- Claim C1 (counterexample): with Left cached `[1,2]` and Right delivering
`[10] FlushAndRestart [20] FlushAndRestart Terminate`, the merged stream is
not the claimed
`Left(1),Left(2),LeftEnd,Right(10),RightEnd,FlushAndRestart,
Left(1),Left(2),LeftEnd,Right(20),RightEnd,FlushAndRestart,Terminate`:
the second iteration starts with the non-cached side's batch. -/
theorem C1_counterexample : binaryPipelineOutput ≠ c1Claimed := by decide

/-- Claim C1 (amended): in the C1 scenario the receiver produces, batch by
batch, iteration 1 live (left first under the scheduling oracle), then —
having consumed the cached side's `Terminate` — iteration 2 with the
non-cached side's batch `Right(20),RightEnd` emitted *before* the cache
replay `Left(1),Left(2),LeftEnd`, and finally the non-cached `Terminate`
plus one synthesized `Terminate` per cached-side instance; after the Start
operator's `FlushAndRestart`/`Terminate` synchronization the downstream
stream is `c1Actual`. -/
theorem C1_cache_replay :
    runBinary 8 c1Receiver c1Oracle =
      [[.Item (.Left 1), .Item (.Left 2), .Item .LeftEnd, .FlushAndRestart],
       [.Item (.Right 10), .Item .RightEnd, .FlushAndRestart],
       [],
       [.Item (.Right 20), .Item .RightEnd, .FlushAndRestart],
       [.Item (.Left 1), .Item (.Left 2), .Item .LeftEnd, .FlushAndRestart],
       [],
       [.Terminate],
       [.Terminate]]
    ∧ binaryPipelineOutput = c1Actual := by
  exact ⟨by decide, by decide⟩

/-- Input of the C6 scenario. -/
def c6Input : List (StreamElement Nat) :=
  [.Item 0, .Item 1, .Item 2, .FlushAndRestart,
   .Item 3, .Item 4, .Item 5, .FlushAndRestart, .Terminate]

/-- Claim C6: a summing `FoldBatch` over
`[0,1,2,FlushAndRestart,3,4,5,FlushAndRestart,Terminate]` emits exactly
`Item 3, FlushAndRestart, Item 12, FlushAndRestart, Terminate`: after each
per-iteration aggregate it resets its flags and emits `FlushAndRestart`
before consuming the next iteration. -/
theorem C6_fold_iter_restart :
    runFB cfgSumMod4 5 (foldInit Nat Nat) c6Input
      = [.Item 3, .FlushAndRestart, .Item 12, .FlushAndRestart, .Terminate] := by
  decide

/-- Claim C8: `NoirType` addition (`Add` and `AddAssign`) panics whenever an
operand is the `NaN()` or `None()` sentinel, and returns a value only when
both operands are `Int32` or `Float32`. -/
theorem C8_add_aborts_on_na (F : Type) (fadd : F → F → F) (i2f : Int → F)
    (x y : NoirType F) :
    ((x.is_na || y.is_na) = true →
      NoirType.add fadd i2f x y = none ∧ NoirType.addAssign fadd i2f x y = none)
    ∧ (∀ z, NoirType.add fadd i2f x y = some z →
        x.isNumeric = true ∧ y.isNumeric = true)
    ∧ (∀ z, NoirType.addAssign fadd i2f x y = some z →
        x.isNumeric = true ∧ y.isNumeric = true) := by
  cases x <;> cases y <;>
    simp [NoirType.add, NoirType.addAssign, NoirType.is_na, NoirType.isNumeric]

/-- Witness for C8 at concrete operands: adding the sentinel aborts. -/
theorem C8_add_aborts_on_na_witness :
    NoirType.add (F := Unit) (fun _ _ => ()) (fun _ => ()) .NaN (.Int32 1) = none
    ∧ NoirType.addAssign (F := Unit) (fun _ _ => ()) (fun _ => ())
        (.Int32 1) .None = none := by
  exact ⟨((C8_add_aborts_on_na Unit (fun _ _ => ()) (fun _ => ())
            .NaN (.Int32 1)).1 (by decide)).1,
         ((C8_add_aborts_on_na Unit (fun _ _ => ()) (fun _ => ())
            (.Int32 1) .None).1 (by decide)).2⟩

/-- Claim C9: a 1-column CSV record without schema becomes `Int32 v` when the
field parses as `i32`, else `Float32 x` when it parses as `f32`, else the
missing sentinel `None()` — and the empty field also becomes `None()`, so
unparseable text and a genuinely missing field are indistinguishable. -/
theorem C9_single_field_coercion (F : Type) (parseF32 : String → Option F)
    (field : String) :
    (field = "" → handleSingleField parseF32 field = .None)
    ∧ (∀ v, parseI32 field = some v →
        handleSingleField parseF32 field = .Int32 v)
    ∧ (∀ x, field ≠ "" → parseI32 field = none → parseF32 field = some x →
        handleSingleField parseF32 field = .Float32 x)
    ∧ (parseI32 field = none → parseF32 field = none →
        handleSingleField parseF32 field = .None) := by
  refine ⟨?_, ?_, ?_, ?_⟩
  · intro h; subst h; rfl
  · intro v hv
    have hne : field ≠ "" := by
      intro h; subst h; exact Option.noConfusion (hv.symm.trans rfl)
    simp [handleSingleField, String.isEmpty_iff, hne, hv]
  · intro x hne hi hf
    simp [handleSingleField, String.isEmpty_iff, hne, hi, hf]
  · intro hi hf
    by_cases hne : field = ""
    · subst hne; rfl
    · simp [handleSingleField, String.isEmpty_iff, hne, hi, hf]

/-- Witness for C9 at concrete fields: `"abc"` (unparseable) and `""`
(missing) both coerce to the `None()` sentinel. -/
theorem C9_single_field_coercion_witness :
    handleSingleField (F := Unit) (fun _ => none) "abc" = .None
    ∧ handleSingleField (F := Unit) (fun _ => none) "" = .None := by
  exact ⟨(C9_single_field_coercion Unit (fun _ => none) "abc").2.2.2
           (by decide) rfl,
         (C9_single_field_coercion Unit (fun _ => none) "").1 rfl⟩

/-- Claim C10: `next_cached_item` advances the pointer by one, returns the
batch at the old pointer, and — exactly when the advanced pointer reaches
the cache length — forces `missing_flush_and_restart` to 0, independently of
how many `FlushAndRestart` elements the replayed batches contain (they are
returned verbatim, never counted); otherwise the counter is untouched. -/
theorem C10_cache_drain_forces_zero (Out Item : Type)
    (s : SideReceiver Out Item) :
    (s.next_cached_item.1.missing_flush_and_restart
      = if s.cache.length ≤ s.cache_pointer + 1 then 0
        else s.missing_flush_and_restart)
    ∧ s.next_cached_item.1.cache_pointer = s.cache_pointer + 1
    ∧ s.next_cached_item.2 = s.cache.getD s.cache_pointer []
    ∧ (s.cache.length ≤ s.cache_pointer + 1 →
        s.next_cached_item.1.missing_flush_and_restart = 0) := by
  unfold SideReceiver.next_cached_item
  by_cases h : s.cache.length ≤ s.cache_pointer + 1 <;> simp [h]

/-- Witness for C10 at a concrete side whose cache (one batch, containing a
replayed `FlushAndRestart`) is drained by this call: the counter is forced
to 0 even though the batch's `FlushAndRestart` was never counted. -/
theorem C10_cache_drain_forces_zero_witness :
    ({ queue := [], instances := 1, missing_flush_and_restart := 1,
       missing_terminate := 0, cached := true,
       cache := [[StreamElement.Item (5 : Nat), .FlushAndRestart]],
       cache_full := true, cache_pointer := 0 }
      : SideReceiver Nat Nat).next_cached_item.1.missing_flush_and_restart
      = 0 := by
  exact (C10_cache_drain_forces_zero Nat Nat _).2.2.2 (by decide)

/-- Claim C4: behaviour of `ContentWindowManager::process` at instant `now`
(monotonic clock: `last ≤ now`).  If the window is open and the gap has
elapsed, the finalized output is yielded and the incoming element is handled
against a fresh window (data opens a new window from the prototype;
`FlushAndRestart`/`Terminate` leave it empty; a timer-expired window is
emptied whatever the element).  Without expiry, data is fed into the open
(or freshly cloned) window updating `last_seen`, `FlushAndRestart` and
`Terminate` finalize and yield any open window, and every other control
element leaves the window state unchanged. -/
theorem C4_content_window_process (γ δ ε : Type) (cfg : WinCfg γ δ ε)
    (acc : γ) (last now : Nat) (x : δ) (its ts : Int) (hmono : last ≤ now) :
    (cfg.gap < now - last →
      cwProcess cfg (some (acc, last)) now (.Item x)
        = (some (.Item (cfg.outA acc)), some (cfg.procA cfg.init x, now))
      ∧ cwProcess cfg (some (acc, last)) now (.Timestamped x its)
        = (some (.Item (cfg.outA acc)), some (cfg.procA cfg.init x, now))
      ∧ cwProcess cfg (some (acc, last)) now .FlushAndRestart
        = (some (.Item (cfg.outA acc)), none)
      ∧ cwProcess cfg (some (acc, last)) now .Terminate
        = (some (.Item (cfg.outA acc)), none)
      ∧ cwProcess cfg (some (acc, last)) now (.Watermark ts)
        = (some (.Item (cfg.outA acc)), none)
      ∧ cwProcess cfg (some (acc, last)) now .FlushBatch
        = (some (.Item (cfg.outA acc)), none))
    ∧ (¬ cfg.gap < now - last →
      cwProcess cfg (some (acc, last)) now (.Item x)
        = (none, some (cfg.procA acc x, now))
      ∧ cwProcess cfg (some (acc, last)) now (.Timestamped x its)
        = (none, some (cfg.procA acc x, now))
      ∧ cwProcess cfg (some (acc, last)) now .FlushAndRestart
        = (some (.Item (cfg.outA acc)), none)
      ∧ cwProcess cfg (some (acc, last)) now .Terminate
        = (some (.Item (cfg.outA acc)), none)
      ∧ cwProcess cfg (some (acc, last)) now (.Watermark ts)
        = (none, some (acc, last))
      ∧ cwProcess cfg (some (acc, last)) now .FlushBatch
        = (none, some (acc, last)))
    ∧ (cwProcess cfg none now (.Item x)
        = (none, some (cfg.procA cfg.init x, now))
      ∧ cwProcess cfg none now (.Timestamped x its)
        = (none, some (cfg.procA cfg.init x, now))
      ∧ cwProcess cfg none now .FlushAndRestart = (none, none)
      ∧ cwProcess cfg none now .Terminate = (none, none)
      ∧ cwProcess cfg none now (.Watermark ts) = (none, none)
      ∧ cwProcess cfg none now .FlushBatch = (none, none)) := by
  refine ⟨fun h => ?_, fun h => ?_, ?_⟩
  · simp [cwProcess, h, Option.orElse]
  · simp [cwProcess, h, Option.orElse]
  · simp [cwProcess, Option.orElse]

/-- Witness for C4 at a concrete expired window (`gap = 5`, `last = 0`,
`now = 10`): the finalized value `7` is yielded and the incoming `Item 3`
opens a fresh window. -/
theorem C4_content_window_process_witness :
    cwProcess { init := 0, procA := Nat.add, outA := id, gap := 5 }
        (some (7, 0)) 10 (.Item 3)
      = (some (.Item 7), some (3, 10)) := by
  exact ((C4_content_window_process Nat Nat Nat
    { init := 0, procA := Nat.add, outA := id, gap := 5 }
    7 0 10 3 0 0 (by decide)).1 (by decide)).1

/-! ## Cached-flag preservation (claim C7) -/

/-- `process_side` never changes the `cached` flag. -/
theorem process_side_cached (side : SideReceiver Out θ)
    (msg : List (StreamElement Out)) (wrap : Out → θ) (endEl : θ) :
    (process_side side msg wrap endEl).1.cached = side.cached := by
  unfold process_side
  by_cases h : side.cached <;> simp [h]

/-- `next_cached_item` never changes the `cached` flag. -/
theorem next_cached_item_cached (s : SideReceiver Out Item) :
    s.next_cached_item.1.cached = s.cached := by
  unfold SideReceiver.next_cached_item
  by_cases h : s.cache.length ≤ s.cache_pointer + 1 <;> simp [h]

/-- `reset` never changes the `cached` flag. -/
theorem reset_cached (s : SideReceiver Out Item) : s.reset.cached = s.cached := by
  unfold SideReceiver.reset
  by_cases h : s.cached <;> simp [h]

/-- `recv` never changes the `cached` flag. -/
theorem recv_cached (s : SideReceiver Out Item) (p) (h : s.recv = some p) :
    p.1.cached = s.cached := by
  unfold SideReceiver.recv at h
  cases hq : s.queue with
  | nil => rw [hq] at h; exact Option.noConfusion h
  | cons m rest => rw [hq] at h; cases h; rfl

/-- `pullLeft` preserves both `cached` flags. -/
theorem pullLeft_cached (b : BinaryStartReceiver L R) (oracle : List Bool) (r)
    (h : pullLeft b oracle = some r) :
    r.1.left.cached = b.left.cached ∧ r.1.right.cached = b.right.cached := by
  unfold pullLeft at h
  cases hq : b.left.recv with
  | none => rw [hq] at h; exact Option.noConfusion h
  | some p =>
    rw [hq] at h
    cases h
    exact ⟨(process_side_cached p.1 p.2 _ _).trans (recv_cached _ _ hq), rfl⟩

/-- `pullRight` preserves both `cached` flags. -/
theorem pullRight_cached (b : BinaryStartReceiver L R) (oracle : List Bool) (r)
    (h : pullRight b oracle = some r) :
    r.1.left.cached = b.left.cached ∧ r.1.right.cached = b.right.cached := by
  unfold pullRight at h
  cases hq : b.right.recv with
  | none => rw [hq] at h; exact Option.noConfusion h
  | some p =>
    rw [hq] at h
    cases h
    exact ⟨rfl, (process_side_cached p.1 p.2 _ _).trans (recv_cached _ _ hq)⟩

/-- `bothAlive` preserves both `cached` flags. -/
theorem bothAlive_cached (b : BinaryStartReceiver L R) (oracle : List Bool) (r)
    (h : bothAlive b oracle = some r) :
    r.1.left.cached = b.left.cached ∧ r.1.right.cached = b.right.cached := by
  unfold bothAlive at h
  cases hl : b.left.is_terminated <;> cases hr : b.right.is_terminated <;>
    rw [hl, hr] at h
  · cases oracle with
    | nil => exact Option.noConfusion h
    | cons c o2 =>
      cases c
      · exact pullRight_cached _ _ _ h
      · exact pullLeft_cached _ _ _ h
  · exact pullLeft_cached _ _ _ h
  · exact pullRight_cached _ _ _ h
  · exact Option.noConfusion h

/-- `probeSides` preserves both `cached` flags. -/
theorem probeSides_cached (b : BinaryStartReceiver L R) (oracle : List Bool) (r)
    (h : probeSides b oracle = some r) :
    r.1.left.cached = b.left.cached ∧ r.1.right.cached = b.right.cached := by
  unfold probeSides at h
  split at h
  · split at h
    · exact pullRight_cached { b with first_message := false } _ _ h
    · exact pullLeft_cached { b with first_message := false } _ _ h
  · split at h
    · cases h
      exact ⟨next_cached_item_cached _, rfl⟩
    · split at h
      · cases h
        exact ⟨rfl, next_cached_item_cached _⟩
      · split at h
        · exact pullRight_cached _ _ _ h
        · split at h
          · exact pullLeft_cached _ _ _ h
          · exact bothAlive_cached _ _ _ h

/-- `resetIfEnded` preserves both `cached` flags. -/
theorem resetIfEnded_cached (b : BinaryStartReceiver L R) :
    (resetIfEnded b).left.cached = b.left.cached ∧
    (resetIfEnded b).right.cached = b.right.cached := by
  unfold resetIfEnded
  split
  · exact ⟨reset_cached _, reset_cached _⟩
  · exact ⟨rfl, rfl⟩

/-- `select` preserves both `cached` flags. -/
theorem select_cached (b : BinaryStartReceiver L R) (oracle : List Bool) (r)
    (h : select b oracle = some r) :
    r.1.left.cached = b.left.cached ∧ r.1.right.cached = b.right.cached := by
  unfold select at h
  split at h
  · cases h; exact ⟨rfl, rfl⟩
  · have hp := probeSides_cached _ _ _ h
    exact ⟨hp.1.trans (resetIfEnded_cached b).1,
           hp.2.trans (resetIfEnded_cached b).2⟩

/-- Claim C7: constructing a `BinaryStartReceiver` with both sides cached
panics; any constructed receiver has at most one cached side, and the cached
flags (hence the invariant) are preserved by every receiver operation
(`setup` and `select`, the latter covering `process_side`,
`next_cached_item`, `reset` and the receives). -/
theorem C7_at_most_one_cached :
    (∀ (L R : Type), BinaryStartReceiver.new L R true true = none)
    ∧ (∀ (L R : Type) (lc rc : Bool) (b : BinaryStartReceiver L R),
        BinaryStartReceiver.new L R lc rc = some b →
        ¬(b.left.cached = true ∧ b.right.cached = true))
    ∧ (∀ (Out Item : Type) (s : SideReceiver Out Item) (n : Nat) (q),
        (s.setup n q).cached = s.cached)
    ∧ (∀ (L R : Type) (b : BinaryStartReceiver L R) (oracle : List Bool) r,
        select b oracle = some r →
        ¬(b.left.cached = true ∧ b.right.cached = true) →
        ¬(r.1.left.cached = true ∧ r.1.right.cached = true)) := by
  refine ⟨fun L R => rfl, ?_, fun _ _ _ _ _ => rfl, ?_⟩
  · intro L R lc rc b hb hcontra
    unfold BinaryStartReceiver.new at hb
    by_cases hlr : lc && rc
    · rw [if_pos hlr] at hb; exact Option.noConfusion hb
    · rw [if_neg hlr] at hb
      cases hb
      have h1 : lc = true := hcontra.1
      have h2 : rc = true := hcontra.2
      subst h1; subst h2; exact hlr rfl
  · intro L R b oracle r h hinv hcontra
    have hc := select_cached b oracle r h
    exact hinv ⟨hc.1 ▸ hcontra.1, hc.2 ▸ hcontra.2⟩

/-- A concrete receiver used to witness C7: both sides terminated, left side
cached with one instance and a drained one-batch cache. -/
def c7Tiny : BinaryStartReceiver Nat Nat :=
  { left := { queue := [], instances := 1, missing_flush_and_restart := 0,
              missing_terminate := 0, cached := true, cache := [[]],
              cache_full := true, cache_pointer := 1 },
    right := { queue := [], instances := 1, missing_flush_and_restart := 0,
               missing_terminate := 0, cached := false, cache := [],
               cache_full := false, cache_pointer := 0 },
    first_message := false }

/-- Witness for C7: on `c7Tiny`, `select` synthesizes the cached side's
`Terminate` and the at-most-one-cached invariant is preserved. -/
theorem C7_at_most_one_cached_witness :
    select c7Tiny [] = some (c7Tiny, [], [.Terminate])
    ∧ ¬(c7Tiny.left.cached = true ∧ c7Tiny.right.cached = true) := by
  refine ⟨rfl, ?_⟩
  exact C7_at_most_one_cached.2.2.2 Nat Nat c7Tiny []
    (c7Tiny, [], [.Terminate]) rfl (by decide)

/-! ## Claim C2: batch partitioning of the fold -/

/-- Partition a list into consecutive chunks of size `b` (the final chunk may
be shorter), accumulating the current partial chunk in `cur`. -/
def chunksGo (b : Nat) : List α → List α → List (List α)
  | cur, [] => if cur.isEmpty then [] else [cur]
  | cur, x :: xs =>
    if (cur ++ [x]).length = b then (cur ++ [x]) :: chunksGo b [] xs
    else chunksGo b (cur ++ [x]) xs

/-- Partition a list into consecutive chunks of size `b` (the final chunk may
be shorter).  `chunks 0 l = [l]` for nonempty `l` mirrors the degenerate
`batch_size = 0` behaviour of the operator, where the store never reaches the
batch size and everything is folded in the final flush. -/
def chunks (b : Nat) (xs : List α) : List (List α) := chunksGo b [] xs

theorem chunks_nil (b : Nat) : chunks b ([] : List α) = [] := rfl

theorem chunksGo_small (b : Nat) :
    ∀ (l cur : List α), cur ++ l ≠ [] → (b = 0 ∨ (cur ++ l).length ≤ b) →
    chunksGo b cur l = [cur ++ l] := by
  intro l
  induction l with
  | nil =>
    intro cur h1 h2
    have hcur : cur ≠ [] := by simpa using h1
    simp [chunksGo, hcur]
  | cons x xs ih =>
    intro cur h1 h2
    by_cases hx : cur.length + 1 = b
    · rcases h2 with h0 | hle
      · subst h0
        simp at hx
      · have hxs : xs = [] := by
          have hlx : xs.length = 0 := by
            simp at hle
            omega
          exact List.eq_nil_of_length_eq_zero hlx
        subst hxs
        simp [chunksGo, hx]
    · rw [show chunksGo b cur (x :: xs) = chunksGo b (cur ++ [x]) xs from by
        simp [chunksGo, hx]]
      rw [ih (cur ++ [x]) (by simp) (by simpa using h2)]
      simp

theorem chunks_small (b : Nat) (l : List α) (hl : l ≠ [])
    (hb : b = 0 ∨ l.length ≤ b) : chunks b l = [l] := by
  have := chunksGo_small b l [] (by simpa using hl) (by simpa using hb)
  simpa [chunks] using this

theorem chunksGo_step (b : Nat) :
    ∀ (d cur l : List α), d ≠ [] → (cur ++ d).length = b →
    chunksGo b cur (d ++ l) = (cur ++ d) :: chunksGo b [] l := by
  intro d
  induction d with
  | nil => intro cur l h; exact absurd rfl h
  | cons x d2 ih =>
    intro cur l _ hlen
    cases d2 with
    | nil =>
      have hx : cur.length + 1 = b := by simpa using hlen
      simp [chunksGo, hx]
    | cons y d3 =>
      have hne : ¬cur.length + 1 = b := by
        simp at hlen
        omega
      rw [show ((x :: y :: d3) ++ l) = x :: ((y :: d3) ++ l) from rfl]
      rw [show chunksGo b cur (x :: ((y :: d3) ++ l))
            = chunksGo b (cur ++ [x]) ((y :: d3) ++ l) from by
        simp [chunksGo, hne]]
      rw [ih (cur ++ [x]) l (by simp) (by simpa using hlen)]
      simp

theorem chunks_step (b : Nat) (c l : List α) (hc : c.length = b)
    (hb : 0 < b) : chunks b (c ++ l) = c :: chunks b l := by
  have hcne : c ≠ [] := by
    intro h
    subst h
    simp at hc
    omega
  have := chunksGo_step b c [] l hcne (by simpa using hc)
  simpa [chunks] using this

/-- Thread a list of items through `pushItem`. -/
def itemsFold (cfg : FoldCfg α β) (q : β × Option (List α)) (xs : List α) :
    β × Option (List α) :=
  xs.foldl (fun q x => pushItem cfg q.1 q.2 x) q

/-- The value the flush phase of `FoldBatch::next` computes from an
accumulator and the pending store. -/
def finalizeAgg (cfg : FoldCfg α β) (q : β × Option (List α)) : β :=
  match q.2 with
  | some vs => if vs.isEmpty then q.1 else cfg.fold q.1 vs
  | none => q.1

/-- Invariant of the store between items: absent, or a nonempty partial
batch strictly below the batch size (except in the degenerate
`batch_size = 0` case, where it only stays nonempty). -/
def okStore (bs : Nat) : Option (List α) → Prop
  | none => True
  | some p => p ≠ [] ∧ (bs = 0 ∨ p.length < bs)

theorem itemsFold_chunks (cfg : FoldCfg α β) :
    ∀ (xs : List α) (a : β) (st : Option (List α)),
    okStore cfg.batch_size st →
    finalizeAgg cfg (itemsFold cfg (a, st) xs)
      = List.foldl cfg.fold a (chunks cfg.batch_size (st.getD [] ++ xs)) := by
  intro xs
  induction xs with
  | nil =>
    intro a st hok
    cases st with
    | none => simp [itemsFold, finalizeAgg, chunks_nil]
    | some p =>
      obtain ⟨hp, hb⟩ := hok
      simp only [Option.getD_some, List.append_nil]
      rw [chunks_small cfg.batch_size p hp
            (by rcases hb with hb | hb
                · exact Or.inl hb
                · exact Or.inr (Nat.le_of_lt hb))]
      simp [itemsFold, finalizeAgg, hp]
  | cons x xs ih =>
    intro a st hok
    have hstep : itemsFold cfg (a, st) (x :: xs)
        = itemsFold cfg (pushItem cfg a st x) xs := by
      simp [itemsFold]
    have hsplit : st.getD [] ++ x :: xs = (st.getD [] ++ [x]) ++ xs := by
      simp
    rw [hstep, hsplit]
    by_cases hlen : (st.getD [] ++ [x]).length = cfg.batch_size
    · have hbpos : 0 < cfg.batch_size := by
        rw [← hlen]; simp
      rw [chunks_step cfg.batch_size (st.getD [] ++ [x]) xs hlen hbpos]
      have hpush : pushItem cfg a st x = (cfg.fold a (st.getD [] ++ [x]), none) := by
        simp [pushItem, hlen]
      rw [hpush, List.foldl_cons]
      have := ih (cfg.fold a (st.getD [] ++ [x])) none trivial
      simpa using this
    · have hlen2 : (st.getD []).length + 1 ≠ cfg.batch_size := by
        simpa using hlen
      have hpush : pushItem cfg a st x = (a, some (st.getD [] ++ [x])) := by
        simp [pushItem, hlen2]
      rw [hpush]
      have hok2 : okStore cfg.batch_size (some (st.getD [] ++ [x])) := by
        refine ⟨by simp, ?_⟩
        cases st with
        | none =>
          simp only [Option.getD_none, List.nil_append, List.length_singleton]
          rcases Nat.eq_zero_or_pos cfg.batch_size with h0 | h1
          · exact Or.inl h0
          · right
            have : (([] : List α) ++ [x]).length ≠ cfg.batch_size := hlen
            simp at this
            omega
        | some p =>
          obtain ⟨hp, hb⟩ := hok
          rcases hb with h0 | hlt
          · exact Or.inl h0
          · right
            have : (p ++ [x]).length ≠ cfg.batch_size := by simpa using hlen
            simp at this ⊢
            omega
      have := ih a (some (st.getD [] ++ [x])) hok2
      simpa using this

/-- When the end flag is already set, the consume loop reads nothing. -/
theorem consumeLoop_of_end (cfg : FoldCfg α β) (s : FoldState α β)
    (l : List (StreamElement α)) (h : s.received_end = true) :
    consumeLoop cfg s l = some (s, l) := by
  cases l <;> simp [consumeLoop, h]

/-- The consume loop over plain items followed by an end marker: it folds
`handleItem` over the items, applies the end marker, and stops there. -/
theorem consumeLoop_items (cfg : FoldCfg α β) :
    ∀ (xs : List α) (s : FoldState α β) (t : StreamElement α)
      (rest : List (StreamElement α)),
    s.received_end = false → (t = .FlushAndRestart ∨ t = .Terminate) →
    consumeLoop cfg s (xs.map .Item ++ t :: rest)
      = some (stepElem cfg (List.foldl (handleItem cfg) s xs) t, rest) := by
  intro xs
  induction xs with
  | nil =>
    intro s t rest hre ht
    have hend : (stepElem cfg s t).received_end = true := by
      rcases ht with h | h <;> subst h <;> rfl
    simp only [List.map_nil, List.nil_append, List.foldl_nil]
    rw [show consumeLoop cfg s (t :: rest)
          = consumeLoop cfg (stepElem cfg s t) rest from by
        simp [consumeLoop, hre]]
    exact consumeLoop_of_end cfg _ rest hend
  | cons x xs ih =>
    intro s t rest hre ht
    have hre2 : (stepElem cfg s (.Item x)).received_end = false := by
      simpa [stepElem, handleItem] using hre
    simp only [List.map_cons, List.cons_append]
    rw [show consumeLoop cfg s (.Item x :: (xs.map .Item ++ t :: rest))
          = consumeLoop cfg (stepElem cfg s (.Item x))
              (xs.map .Item ++ t :: rest) from by
        simp [consumeLoop, hre]]
    rw [ih (stepElem cfg s (.Item x)) t rest hre2 ht]
    rfl

/-- Folding `handleItem` over items only touches the accumulator/store pair,
exactly as `itemsFold` does on that pair. -/
theorem foldl_handleItem_comp (cfg : FoldCfg α β) :
    ∀ (xs : List α) (s : FoldState α β),
    ((List.foldl (handleItem cfg) s xs).accumulator.getD cfg.init,
      (List.foldl (handleItem cfg) s xs).store)
        = itemsFold cfg (s.accumulator.getD cfg.init, s.store) xs
    ∧ (List.foldl (handleItem cfg) s xs).timestamp = s.timestamp
    ∧ (List.foldl (handleItem cfg) s xs).max_watermark = s.max_watermark
    ∧ (List.foldl (handleItem cfg) s xs).received_end = s.received_end
    ∧ (List.foldl (handleItem cfg) s xs).received_end_iter
        = s.received_end_iter := by
  intro xs
  induction xs with
  | nil => intro s; exact ⟨rfl, rfl, rfl, rfl, rfl⟩
  | cons x xs ih =>
    intro s
    have h := ih (handleItem cfg s x)
    simp only [List.foldl_cons]
    refine ⟨?_, h.2.1.trans rfl, h.2.2.1.trans rfl, h.2.2.2.1.trans rfl,
            h.2.2.2.2.trans rfl⟩
    rw [h.1]
    simp [handleItem, itemsFold]

/-- After at least one item, the accumulator is present. -/
theorem foldl_handleItem_acc_some (cfg : FoldCfg α β) :
    ∀ (xs : List α) (s : FoldState α β), xs ≠ [] →
    ∃ v, (List.foldl (handleItem cfg) s xs).accumulator = some v := by
  intro xs
  induction xs with
  | nil => intro s h; exact absurd rfl h
  | cons x xs ih =>
    intro s _
    cases hxs : xs with
    | nil => exact ⟨_, rfl⟩
    | cons y ys =>
      rw [List.foldl_cons, ← hxs]
      exact ih (handleItem cfg s x) (by simp [hxs])

/-- The flush phase when an aggregate is pending and no timestamp was seen:
drain the store into the accumulator and emit it as an `Item`. -/
theorem flushFB_some (cfg : FoldCfg α β) (s : FoldState α β) (v : β)
    (hv : s.accumulator = some v) (hts : s.timestamp = none) :
    flushFB cfg s
      = (.Item (finalizeAgg cfg (v, s.store)),
         { s with accumulator := none, store := none }) := by
  cases hst : s.store with
  | none => simp [flushFB, finalizeAgg, hv, hts, hst]
  | some vs => simp [flushFB, finalizeAgg, hv, hts, hst]

/-- Claim C2: for every fold function, initial value and batch size, a
`FoldBatch` consuming items `x1..xn` followed by `FlushAndRestart` or
`Terminate` emits the fold applied successively to the batches partitioning
the input in arrival order (full batches of `batch_size`, plus a final
possibly-partial batch); in particular input `0..10` (u8), a summing fold
and batch size 4 produce `Item 45, Terminate`. -/
theorem C2_fold_partition :
    (∀ (α β : Type) (cfg : FoldCfg α β) (xs : List α) (t : StreamElement α),
      xs ≠ [] → (t = .FlushAndRestart ∨ t = .Terminate) →
      ∃ s2, nextFB cfg (foldInit α β) (xs.map .Item ++ [t])
        = some (.Item (List.foldl cfg.fold cfg.init
                        (chunks cfg.batch_size xs)), s2, []))
    ∧ runFB cfgSumMod4 2 (foldInit Nat Nat)
        ((List.range 10).map .Item ++ [.Terminate])
      = [.Item 45, .Terminate] := by
  constructor
  · intro α β cfg xs t hxs ht
    have hcl := consumeLoop_items cfg xs (foldInit α β) t [] rfl ht
    obtain ⟨v, hv⟩ := foldl_handleItem_acc_some cfg xs (foldInit α β) hxs
    have hcomp := foldl_handleItem_comp cfg xs (foldInit α β)
    have hpair : ((List.foldl (handleItem cfg) (foldInit α β) xs).accumulator.getD
          cfg.init,
        (List.foldl (handleItem cfg) (foldInit α β) xs).store)
          = itemsFold cfg (cfg.init, none) xs := hcomp.1
    have hts : (List.foldl (handleItem cfg) (foldInit α β) xs).timestamp
        = none := hcomp.2.1
    have hnext : nextFB cfg (foldInit α β) (xs.map .Item ++ [t])
        = some ((flushFB cfg
            (stepElem cfg (List.foldl (handleItem cfg) (foldInit α β) xs) t)).1,
          (flushFB cfg
            (stepElem cfg (List.foldl (handleItem cfg) (foldInit α β) xs) t)).2,
          []) := by
      unfold nextFB
      rw [hcl]
      rfl
    have hacc1 : (stepElem cfg (List.foldl (handleItem cfg) (foldInit α β) xs)
        t).accumulator = some v := by
      rcases ht with h | h <;> subst h <;> simpa using hv
    have hts1 : (stepElem cfg (List.foldl (handleItem cfg) (foldInit α β) xs)
        t).timestamp = none := by
      rcases ht with h | h <;> subst h <;> simpa using hts
    have hst1 : (stepElem cfg (List.foldl (handleItem cfg) (foldInit α β) xs)
        t).store = (List.foldl (handleItem cfg) (foldInit α β) xs).store := by
      rcases ht with h | h <;> subst h <;> rfl
    have hflush := flushFB_some cfg
      (stepElem cfg (List.foldl (handleItem cfg) (foldInit α β) xs) t) v
      hacc1 hts1
    have h1 : v = (itemsFold cfg (cfg.init, none) xs).1 := by
      have := congrArg Prod.fst hpair
      simpa [hv] using this
    have h2 : (List.foldl (handleItem cfg) (foldInit α β) xs).store
        = (itemsFold cfg (cfg.init, none) xs).2 := congrArg Prod.snd hpair
    have hval : finalizeAgg cfg (v,
        (stepElem cfg (List.foldl (handleItem cfg) (foldInit α β) xs) t).store)
          = List.foldl cfg.fold cfg.init (chunks cfg.batch_size xs) := by
      rw [hst1, h1, h2]
      have heta : ((itemsFold cfg (cfg.init, none) xs).1,
          (itemsFold cfg (cfg.init, none) xs).2)
            = itemsFold cfg (cfg.init, none) xs := rfl
      rw [heta]
      have := itemsFold_chunks cfg xs cfg.init none trivial
      simpa using this
    refine ⟨(flushFB cfg
      (stepElem cfg (List.foldl (handleItem cfg) (foldInit α β) xs) t)).2, ?_⟩
    rw [hnext, hflush, hval]
  · decide

/-- Witness for C2: the general statement at the concrete seed — input
`0..10`, summing fold over `u8`, batch size 4 — emits the aggregate 45. -/
theorem C2_fold_partition_witness :
    ∃ s2, nextFB cfgSumMod4 (foldInit Nat Nat)
        ((List.range 10).map .Item ++ [.Terminate])
      = some (.Item 45, s2, []) := by
  have h := C2_fold_partition.1 Nat Nat cfgSumMod4 (List.range 10) .Terminate
    (by decide) (Or.inr rfl)
  have hval : List.foldl cfgSumMod4.fold cfgSumMod4.init
      (chunks cfgSumMod4.batch_size (List.range 10)) = 45 := by decide
  rw [hval] at h
  exact h

/-! ## Claim C3: watermarks at the aggregator -/

/-- The watermark values of a stream, in order. -/
def wmList (l : List (StreamElement α)) : List Int :=
  l.filterMap fun e => match e with | .Watermark ts => some ts | _ => none

/-- Fold the `Watermark` arm of `FoldBatch::next`
(`max_watermark = Some(max_watermark.unwrap_or(ts).max(ts))`) over a list of
watermark values. -/
def combineWM (o : Option Int) (l : List Int) : Option Int :=
  l.foldl (fun a ts => some (max (a.getD ts) ts)) o

/-- Every value in the option is at most `w`. -/
def optLe (o : Option Int) (w : Int) : Prop := ∀ x, o = some x → x ≤ w

/-- Every value in the first option is at most every value in the second. -/
def optLeO (o p : Option Int) : Prop :=
  ∀ x y, o = some x → p = some y → x ≤ y

/-- Prepend an optional lower bound to a list. -/
def optConsWM : Option Int → List Int → List Int
  | none, l => l
  | some w, l => w :: l

theorem combineWM_le (w : Int) :
    ∀ (l : List Int) (o : Option Int), optLe o w → (∀ t ∈ l, t ≤ w) →
    optLe (combineWM o l) w := by
  intro l
  induction l with
  | nil => intro o ho _; exact ho
  | cons t l ih =>
    intro o ho hl
    apply ih
    · intro x hx
      have hx2 : max (o.getD t) t = x := Option.some.inj hx
      rw [← hx2]
      refine max_le ?_ (hl t (by simp))
      cases o with
      | none => simpa using hl t (by simp)
      | some y => simpa using ho y rfl
    · intro u hu
      exact hl u (by simp [hu])

theorem combineWM_leO (w0 : Option Int) :
    ∀ (l : List Int) (o : Option Int), optLeO w0 o →
    (∀ t ∈ l, optLe w0 t) → optLeO w0 (combineWM o l) := by
  intro l
  induction l with
  | nil => intro o ho _; exact ho
  | cons t l ih =>
    intro o ho hl
    apply ih
    · intro x y hx hy
      have hy2 : max (o.getD t) t = y := Option.some.inj hy
      rw [← hy2]
      exact le_trans (hl t (by simp) x hx) (le_max_right _ t)
    · intro u hu
      exact hl u (by simp [hu])

/-- The consume loop reads a prefix of the upstream and accumulates exactly
the watermarks of that prefix into `max_watermark`. -/
theorem consumeLoop_wm (cfg : FoldCfg α β) :
    ∀ (inp : List (StreamElement α)) (s s1 : FoldState α β)
      (rest : List (StreamElement α)),
    consumeLoop cfg s inp = some (s1, rest) →
    ∃ pre, inp = pre ++ rest ∧
      s1.max_watermark = combineWM s.max_watermark (wmList pre) := by
  intro inp
  induction inp with
  | nil =>
    intro s s1 rest h
    by_cases hre : s.received_end
    · rw [consumeLoop_of_end cfg s [] hre] at h
      injection h with h2
      injection h2 with ha hb
      subst ha; subst hb
      exact ⟨[], rfl, rfl⟩
    · simp [consumeLoop, hre] at h
  | cons e tl ih =>
    intro s s1 rest h
    by_cases hre : s.received_end
    · rw [consumeLoop_of_end cfg s (e :: tl) hre] at h
      injection h with h2
      injection h2 with ha hb
      subst ha; subst hb
      exact ⟨[], rfl, rfl⟩
    · rw [show consumeLoop cfg s (e :: tl)
            = consumeLoop cfg (stepElem cfg s e) tl from by
          simp [consumeLoop, hre]] at h
      obtain ⟨pre, hpre, hmw⟩ := ih (stepElem cfg s e) s1 rest h
      refine ⟨e :: pre, by rw [List.cons_append, ← hpre], ?_⟩
      rcases e with x | ⟨x, ts⟩ | ts | _ | _ | _
      · rw [hmw]; rfl
      · rw [hmw]; rfl
      · rw [hmw]; rfl
      · rw [hmw]; rfl
      · rw [hmw]; rfl
      · rw [hmw]; rfl

/-- Case analysis of the flush phase: the emitted element with the fate of
`max_watermark`. -/
theorem flushFB_cases (cfg : FoldCfg α β) (s : FoldState α β) :
    (∃ v, (flushFB cfg s).1 = .Item v
      ∧ (flushFB cfg s).2.max_watermark = s.max_watermark)
    ∨ (∃ v ts, (flushFB cfg s).1 = .Timestamped v ts
      ∧ (flushFB cfg s).2.max_watermark = s.max_watermark)
    ∨ (∃ ts, s.max_watermark = some ts ∧ (flushFB cfg s).1 = .Watermark ts
      ∧ (flushFB cfg s).2.max_watermark = none)
    ∨ ((flushFB cfg s).1 = .FlushAndRestart ∧ s.max_watermark = none
      ∧ (flushFB cfg s).2.max_watermark = none)
    ∨ (flushFB cfg s).1 = .Terminate := by
  cases hacc : s.accumulator with
  | some a =>
    cases hts : s.timestamp with
    | some ts =>
      exact Or.inr (Or.inl ⟨finalizeAgg cfg (a, s.store), ts,
        by cases hst : s.store <;> simp [flushFB, finalizeAgg, hacc, hts, hst],
        by cases hst : s.store <;> simp [flushFB, hacc, hts, hst]⟩)
    | none =>
      exact Or.inl ⟨finalizeAgg cfg (a, s.store),
        by cases hst : s.store <;> simp [flushFB, finalizeAgg, hacc, hts, hst],
        by cases hst : s.store <;> simp [flushFB, hacc, hts, hst]⟩
  | none =>
    cases hmwc : s.max_watermark with
    | some ts =>
      exact Or.inr (Or.inr (Or.inl ⟨ts, rfl, by simp [flushFB, hacc, hmwc],
        by simp [flushFB, hacc, hmwc]⟩))
    | none =>
      by_cases hrei : s.received_end_iter
      · exact Or.inr (Or.inr (Or.inr (Or.inl
          ⟨by simp [flushFB, hacc, hmwc, hrei], rfl,
           by simp [flushFB, hacc, hmwc, hrei, hmwc]⟩)))
      · exact Or.inr (Or.inr (Or.inr (Or.inr
          (by simp [flushFB, hacc, hmwc, hrei]))))

theorem wmList_append (l1 l2 : List (StreamElement α)) :
    wmList (l1 ++ l2) = wmList l1 ++ wmList l2 := by
  simp [wmList]

/-- Main invariant for watermark monotonicity: if the incoming watermarks
are non-decreasing, dominate the stored `max_watermark` and the last emitted
watermark `w0`, then every watermark the run emits is ≥ `w0` and the emitted
watermarks are pairwise non-decreasing. -/
theorem runFB_wm_aux (cfg : FoldCfg α β) :
    ∀ (fuel : Nat) (s : FoldState α β) (inp : List (StreamElement α))
      (w0 : Option Int),
    List.Pairwise (· ≤ ·) (wmList inp) →
    (∀ t ∈ wmList inp, optLe s.max_watermark t) →
    (∀ t ∈ wmList inp, optLe w0 t) →
    optLeO w0 s.max_watermark →
    List.Pairwise (· ≤ ·) (optConsWM w0 (wmList (runFB cfg fuel s inp))) := by
  intro fuel
  induction fuel with
  | zero =>
    intro s inp w0 _ _ _ _
    cases w0 <;> simp [runFB, optConsWM, wmList]
  | succ fuel ih =>
    intro s inp w0 hPW hs hw0 hO
    cases hnext : nextFB cfg s inp with
    | none =>
      rw [show runFB cfg (fuel + 1) s inp = [] from by simp [runFB, hnext]]
      cases w0 <;> simp [optConsWM, wmList]
    | some trip =>
      obtain ⟨el, s2, rest⟩ := trip
      have hdec : ∃ s1, consumeLoop cfg s inp = some (s1, rest)
          ∧ flushFB cfg s1 = (el, s2) := by
        unfold nextFB at hnext
        cases hcl : consumeLoop cfg s inp with
        | none => rw [hcl] at hnext; exact Option.noConfusion hnext
        | some p =>
          rw [hcl] at hnext
          simp only [Option.map_some] at hnext
          injection hnext with h3
          refine ⟨p.1, ?_, ?_⟩
          · have h6 : p.2 = rest := congrArg (fun q => q.2.2) h3
            exact congrArg some (by rw [← h6])
          · exact Prod.ext (congrArg (fun q => q.1) h3)
              (congrArg (fun q => q.2.1) h3)
      obtain ⟨s1, hcl, hfl⟩ := hdec
      obtain ⟨pre, hinp, hmw⟩ := consumeLoop_wm cfg inp s s1 rest hcl
      subst hinp
      rw [wmList_append] at hPW hs hw0
      have hcross : ∀ a ∈ wmList pre, ∀ b ∈ wmList rest, a ≤ b :=
        (List.pairwise_append.1 hPW).2.2
      have hPWrest : List.Pairwise (· ≤ ·) (wmList rest) :=
        (List.pairwise_append.1 hPW).2.1
      have hA : ∀ t ∈ wmList rest, optLe s1.max_watermark t := by
        intro t ht
        rw [hmw]
        exact combineWM_le t (wmList pre) s.max_watermark
          (hs t (List.mem_append_right _ ht))
          (fun u hu => hcross u hu t ht)
      have hB : ∀ t ∈ wmList rest, optLe w0 t :=
        fun t ht => hw0 t (List.mem_append_right _ ht)
      have hC : optLeO w0 s1.max_watermark := by
        rw [hmw]
        exact combineWM_leO w0 (wmList pre) s.max_watermark hO
          (fun t ht => hw0 t (List.mem_append_left _ ht))
      rcases flushFB_cases cfg s1 with ⟨v, he, hm⟩ | ⟨v, ts, he, hm⟩ |
        ⟨ts, hsm, he, hm⟩ | ⟨he, hsm, hm⟩ | he
      all_goals rw [hfl] at he
      · -- Item: the watermark survives into s2
        rw [hfl] at hm
        simp only at he hm
        subst he
        have hrun : runFB cfg (fuel + 1) s (pre ++ rest)
            = .Item v :: runFB cfg fuel s2 rest := by
          simp only [runFB]
          rw [hnext]
        rw [hrun]
        rw [show wmList (.Item v :: runFB cfg fuel s2 rest)
              = wmList (runFB cfg fuel s2 rest) from rfl]
        exact ih s2 rest w0 hPWrest (fun t ht => hm ▸ hA t ht) hB
          (fun x y hx hy => hC x y hx (hm ▸ hy))
      · -- Timestamped
        rw [hfl] at hm
        simp only at he hm
        subst he
        have hrun : runFB cfg (fuel + 1) s (pre ++ rest)
            = .Timestamped v ts :: runFB cfg fuel s2 rest := by
          simp only [runFB]
          rw [hnext]
        rw [hrun]
        rw [show wmList (.Timestamped v ts :: runFB cfg fuel s2 rest)
              = wmList (runFB cfg fuel s2 rest) from rfl]
        exact ih s2 rest w0 hPWrest (fun t ht => hm ▸ hA t ht) hB
          (fun x y hx hy => hC x y hx (hm ▸ hy))
      · -- Watermark: emitted, reset, and it bounds everything after
        rw [hfl] at hm
        simp only at he hm
        subst he
        have hrun : runFB cfg (fuel + 1) s (pre ++ rest)
            = .Watermark ts :: runFB cfg fuel s2 rest := by
          simp only [runFB]
          rw [hnext]
        rw [hrun]
        rw [show wmList (.Watermark ts :: runFB cfg fuel s2 rest)
              = ts :: wmList (runFB cfg fuel s2 rest) from rfl]
        have hts_rest : ∀ t ∈ wmList rest, optLe (some ts) t := by
          intro t ht x hx
          injection hx with hx2
          subst hx2
          exact hA t ht ts hsm
        have hih := ih s2 rest (some ts) hPWrest
          (fun t ht x hx => absurd (hm ▸ hx) (by simp))
          hts_rest
          (fun x y hx hy => absurd (hm ▸ hy) (by simp))
        rw [show optConsWM (some ts) (wmList (runFB cfg fuel s2 rest))
              = ts :: wmList (runFB cfg fuel s2 rest) from rfl] at hih
        cases hw : w0 with
        | none => simpa [optConsWM] using hih
        | some w =>
          rw [show optConsWM (some w) (ts :: wmList (runFB cfg fuel s2 rest))
                = w :: ts :: wmList (runFB cfg fuel s2 rest) from rfl]
          refine List.Pairwise.cons ?_ hih
          intro b hb
          rcases List.mem_cons.1 hb with hb | hb
          · subst hb
            exact hC w b (by rw [hw]) (by rw [hsm])
          · exact le_trans (hC w ts (by rw [hw]) hsm)
              (List.rel_of_pairwise_cons hih hb)
      · -- FlushAndRestart: nothing emitted into the watermark list
        rw [hfl] at hm
        simp only at he hm
        subst he
        have hrun : runFB cfg (fuel + 1) s (pre ++ rest)
            = .FlushAndRestart :: runFB cfg fuel s2 rest := by
          simp only [runFB]
          rw [hnext]
        rw [hrun]
        rw [show wmList ((.FlushAndRestart : StreamElement β)
              :: runFB cfg fuel s2 rest)
              = wmList (runFB cfg fuel s2 rest) from rfl]
        exact ih s2 rest w0 hPWrest
          (fun t ht x hx => absurd (hm ▸ hx) (by simp))
          hB
          (fun x y hx hy => absurd (hm ▸ hy) (by simp))
      · -- Terminate: the run stops
        subst he
        have hrun : runFB cfg (fuel + 1) s (pre ++ rest)
            = [.Terminate] := by
          simp only [runFB]
          rw [hnext]
        rw [hrun]
        cases w0 <;> simp [optConsWM, wmList]

/-- A fold configuration that ignores its input (used for the watermark
scenarios, where no items flow). -/
def cfgKeep : FoldCfg Nat Nat := { fold := fun a _ => a, init := 0, batch_size := 1 }

/-- Input refuting unconditional watermark monotonicity: the watermark is
flushed (and the stored maximum reset) at each iteration boundary, so a
smaller watermark in the next iteration is re-emitted. -/
def c3Input : List (StreamElement Nat) :=
  [.Watermark 5, .FlushAndRestart, .Watermark 3, .FlushAndRestart, .Terminate]

/-- Claim C3 (counterexample): a grammar-conforming input on which `FoldBatch`
emits `Watermark 5` and later `Watermark 3` — the emitted watermarks are not
non-decreasing. -/
theorem C3_counterexample :
    conformsControlGrammar c3Input = true
    ∧ runFB cfgKeep 6 (foldInit Nat Nat) c3Input
        = [.Watermark 5, .FlushAndRestart, .Watermark 3, .FlushAndRestart,
           .Terminate]
    ∧ ¬ List.Pairwise (· ≤ ·)
        (wmList (runFB cfgKeep 6 (foldInit Nat Nat) c3Input)) := by
  exact ⟨by decide, by decide, by decide⟩

/-- Claim C3 (amended): for every grammar-conforming input whose watermark
values are non-decreasing in arrival order, the watermarks `FoldBatch` emits
across successive `next()` calls are non-decreasing. -/
theorem C3_watermark_monotone (α β : Type) (cfg : FoldCfg α β) (fuel : Nat)
    (inp : List (StreamElement α))
    (hgram : conformsControlGrammar inp = true)
    (hmono : List.Pairwise (· ≤ ·) (wmList inp)) :
    List.Pairwise (· ≤ ·) (wmList (runFB cfg fuel (foldInit α β) inp)) := by
  have h := runFB_wm_aux cfg fuel (foldInit α β) inp none hmono
    (fun t ht x hx => Option.noConfusion hx)
    (fun t ht x hx => Option.noConfusion hx)
    (fun x y hx _ => Option.noConfusion hx)
  simpa [optConsWM] using h

/-- Witness for C3 (amended) at a concrete monotone input. -/
theorem C3_watermark_monotone_witness :
    List.Pairwise (· ≤ ·)
      (wmList (runFB cfgKeep 6 (foldInit Nat Nat)
        [.Watermark 1, .FlushAndRestart, .Watermark 2, .FlushAndRestart,
         .Terminate])) := by
  exact C3_watermark_monotone Nat Nat cfgKeep 6
    [.Watermark 1, .FlushAndRestart, .Watermark 2, .FlushAndRestart,
     .Terminate] (by decide) (by decide)

/-! ## Claim C5: element walk of `process_side` -/

/-- Number of `FlushAndRestart` elements in a batch. -/
def countFAR (l : List (StreamElement α)) : Nat :=
  l.countP fun e => match e with | .FlushAndRestart => true | _ => false

/-- Number of `Terminate` elements in a batch. -/
def countTerm (l : List (StreamElement α)) : Nat :=
  l.countP fun e => match e with | .Terminate => true | _ => false

/-- Whether an element is the synthesized `Item(LeftEnd)`/`Item(RightEnd)`
marker for the given `endEl`. -/
def isEndItem [DecidableEq θ] (endEl : θ) : StreamElement θ → Bool
  | .Item y => y == endEl
  | _ => false

/-- Every occurrence of the end marker is immediately followed by a
`FlushAndRestart`. -/
def goodSeq [DecidableEq θ] (endEl : θ) : List (StreamElement θ) → Prop
  | [] => True
  | [a] => isEndItem endEl a = false
  | a :: b :: t =>
    (isEndItem endEl a = true → b = .FlushAndRestart) ∧ goodSeq endEl (b :: t)

theorem goodSeq_cons [DecidableEq θ] (endEl : θ) (a : StreamElement θ)
    (l : List (StreamElement θ)) (ha : isEndItem endEl a = false)
    (hl : goodSeq endEl l) : goodSeq endEl (a :: l) := by
  cases l with
  | nil => exact ha
  | cons b t => exact ⟨fun h => absurd h (by simp [ha]), hl⟩

theorem goodSeq_end_cons [DecidableEq θ] (endEl : θ)
    (l : List (StreamElement θ)) (hl : goodSeq endEl l) :
    goodSeq endEl (.Item endEl :: .FlushAndRestart :: l) :=
  ⟨fun _ => rfl, goodSeq_cons endEl _ l (by simp [isEndItem]) hl⟩

theorem processBatch_counters (cached : Bool) (wrap : Out → θ) (endEl : θ) :
    ∀ (msg : List (StreamElement Out)) (mfar mterm : Nat),
    (processBatch cached wrap endEl mfar mterm msg).1 = mfar - countFAR msg
    ∧ (processBatch cached wrap endEl mfar mterm msg).2.1
        = mterm - countTerm msg := by
  intro msg
  induction msg with
  | nil => intro mfar mterm; simp [processBatch, countFAR, countTerm]
  | cons e rest ih =>
    intro mfar mterm
    rcases e with x | ⟨x, ts⟩ | ts | _ | _ | _
    · simpa [processBatch, countFAR, countTerm, List.countP_cons]
        using ih mfar mterm
    · simpa [processBatch, countFAR, countTerm, List.countP_cons]
        using ih mfar mterm
    · simpa [processBatch, countFAR, countTerm, List.countP_cons]
        using ih mfar mterm
    · simpa [processBatch, countFAR, countTerm, List.countP_cons]
        using ih mfar mterm
    · -- FlushAndRestart
      have h := ih (mfar - 1) mterm
      constructor
      · rw [show (processBatch cached wrap endEl mfar mterm
              (.FlushAndRestart :: rest)).1
            = (processBatch cached wrap endEl (mfar - 1) mterm rest).1 from by
          simp [processBatch]]
        rw [h.1]
        have : countFAR (.FlushAndRestart :: rest) = countFAR rest + 1 := by
          simp [countFAR, List.countP_cons]
        rw [this]
        omega
      · rw [show (processBatch cached wrap endEl mfar mterm
              (.FlushAndRestart :: rest)).2.1
            = (processBatch cached wrap endEl (mfar - 1) mterm rest).2.1 from by
          simp [processBatch]]
        rw [h.2]
        simp [countTerm, List.countP_cons]
    · -- Terminate
      have h := ih mfar (mterm - 1)
      constructor
      · rw [show (processBatch cached wrap endEl mfar mterm
              (.Terminate :: rest)).1
            = (processBatch cached wrap endEl mfar (mterm - 1) rest).1 from by
          simp [processBatch]]
        rw [h.1]
        simp [countFAR, List.countP_cons]
      · rw [show (processBatch cached wrap endEl mfar mterm
              (.Terminate :: rest)).2.1
            = (processBatch cached wrap endEl mfar (mterm - 1) rest).2.1 from by
          simp [processBatch]]
        rw [h.2]
        have : countTerm (.Terminate :: rest) = countTerm rest + 1 := by
          simp [countTerm, List.countP_cons]
        rw [this]
        omega

theorem processBatch_filter [DecidableEq θ] (cached : Bool) (wrap : Out → θ)
    (endEl : θ) (hne : ∀ x, wrap x ≠ endEl) :
    ∀ (msg : List (StreamElement Out)) (mfar mterm : Nat),
    (processBatch cached wrap endEl mfar mterm msg).2.2.filter
        (fun e => !isEndItem endEl e)
      = (if cached then
          msg.filter (fun e => match e with | .Terminate => false | _ => true)
         else msg).map (StreamElement.map wrap) := by
  intro msg
  induction msg with
  | nil => intro mfar mterm; cases cached <;> simp [processBatch]
  | cons e rest ih =>
    intro mfar mterm
    rcases e with x | ⟨x, ts⟩ | ts | _ | _ | _
    · have hx : (wrap x == endEl) = false := by
        simp only [beq_eq_false_iff_ne, ne_eq]
        exact hne x
      cases cached <;>
        simpa [processBatch, StreamElement.map, List.filter_append, isEndItem,
               hx] using ih mfar mterm
    · cases cached <;>
        simpa [processBatch, StreamElement.map, List.filter_append, isEndItem]
          using ih mfar mterm
    · cases cached <;>
        simpa [processBatch, StreamElement.map, List.filter_append, isEndItem]
          using ih mfar mterm
    · cases cached <;>
        simpa [processBatch, StreamElement.map, List.filter_append, isEndItem]
          using ih mfar mterm
    · by_cases hz : mfar - 1 = 0 <;> cases cached <;>
        simpa [processBatch, hz, StreamElement.map, List.filter_append,
               isEndItem] using ih (mfar - 1) mterm
    · cases cached <;>
        simpa [processBatch, StreamElement.map, List.filter_append, isEndItem]
          using ih mfar (mterm - 1)

theorem processBatch_goodSeq [DecidableEq θ] (cached : Bool) (wrap : Out → θ)
    (endEl : θ) (hne : ∀ x, wrap x ≠ endEl) :
    ∀ (msg : List (StreamElement Out)) (mfar mterm : Nat),
    goodSeq endEl (processBatch cached wrap endEl mfar mterm msg).2.2 := by
  intro msg
  induction msg with
  | nil => intro mfar mterm; simp [processBatch, goodSeq]
  | cons e rest ih =>
    intro mfar mterm
    rcases e with x | ⟨x, ts⟩ | ts | _ | _ | _
    · have hx : isEndItem endEl (.Item (wrap x)) = false := by
        simp [isEndItem]
        exact hne x
      rw [show (processBatch cached wrap endEl mfar mterm
            (.Item x :: rest)).2.2
          = .Item (wrap x)
            :: (processBatch cached wrap endEl mfar mterm rest).2.2 from by
        simp [processBatch, StreamElement.map]]
      exact goodSeq_cons endEl _ _ hx (ih mfar mterm)
    · rw [show (processBatch cached wrap endEl mfar mterm
            (.Timestamped x ts :: rest)).2.2
          = .Timestamped (wrap x) ts
            :: (processBatch cached wrap endEl mfar mterm rest).2.2 from by
        simp [processBatch, StreamElement.map]]
      exact goodSeq_cons endEl _ _ (by simp [isEndItem]) (ih mfar mterm)
    · rw [show (processBatch cached wrap endEl mfar mterm
            (.Watermark ts :: rest)).2.2
          = .Watermark ts
            :: (processBatch cached wrap endEl mfar mterm rest).2.2 from by
        simp [processBatch, StreamElement.map]]
      exact goodSeq_cons endEl _ _ (by simp [isEndItem]) (ih mfar mterm)
    · rw [show (processBatch cached wrap endEl mfar mterm
            (.FlushBatch :: rest)).2.2
          = .FlushBatch
            :: (processBatch cached wrap endEl mfar mterm rest).2.2 from by
        simp [processBatch, StreamElement.map]]
      exact goodSeq_cons endEl _ _ (by simp [isEndItem]) (ih mfar mterm)
    · by_cases hz : mfar - 1 = 0
      · rw [show (processBatch cached wrap endEl mfar mterm
              (.FlushAndRestart :: rest)).2.2
            = .Item endEl :: .FlushAndRestart
              :: (processBatch cached wrap endEl (mfar - 1) mterm rest).2.2
            from by simp [processBatch, hz, StreamElement.map]]
        exact goodSeq_end_cons endEl _ (ih (mfar - 1) mterm)
      · rw [show (processBatch cached wrap endEl mfar mterm
              (.FlushAndRestart :: rest)).2.2
            = .FlushAndRestart
              :: (processBatch cached wrap endEl (mfar - 1) mterm rest).2.2
            from by simp [processBatch, hz, StreamElement.map]]
        exact goodSeq_cons endEl _ _ (by simp [isEndItem]) (ih (mfar - 1) mterm)
    · cases hc : cached
      · rw [show (processBatch false wrap endEl mfar mterm
              (.Terminate :: rest)).2.2
            = .Terminate
              :: (processBatch false wrap endEl mfar (mterm - 1) rest).2.2
            from by simp [processBatch, StreamElement.map]]
        exact goodSeq_cons endEl _ _ (by simp [isEndItem])
          (by simpa [hc] using ih mfar (mterm - 1))
      · rw [show (processBatch true wrap endEl mfar mterm
              (.Terminate :: rest)).2.2
            = (processBatch true wrap endEl mfar (mterm - 1) rest).2.2
            from by simp [processBatch]]
        simpa [hc] using ih mfar (mterm - 1)

theorem processBatch_endCount [DecidableEq θ] (cached : Bool)
    (wrap : Out → θ) (endEl : θ) (hne : ∀ x, wrap x ≠ endEl) :
    ∀ (msg : List (StreamElement Out)) (mfar mterm : Nat),
    countFAR msg ≤ mfar →
    (processBatch cached wrap endEl mfar mterm msg).2.2.countP
        (isEndItem endEl)
      = if 0 < mfar ∧ countFAR msg = mfar then 1 else 0 := by
  intro msg
  induction msg with
  | nil =>
    intro mfar mterm _
    have hcond : ¬(0 < mfar ∧ countFAR ([] : List (StreamElement Out)) = mfar)
        := by
      simp [countFAR]
      omega
    simp [processBatch, hcond]
  | cons e rest ih =>
    intro mfar mterm hfar
    rcases e with x | ⟨x, ts⟩ | ts | _ | _ | _
    · have hx : (wrap x == endEl) = false := by
        simp only [beq_eq_false_iff_ne, ne_eq]
        exact hne x
      have hf : countFAR (.Item x :: rest) = countFAR rest := by
        simp [countFAR, List.countP_cons]
      rw [hf] at hfar ⊢
      simpa [processBatch, List.countP_append, List.countP_cons, isEndItem,
             StreamElement.map, hx] using ih mfar mterm hfar
    · have hf : countFAR (.Timestamped x ts :: rest) = countFAR rest := by
        simp [countFAR, List.countP_cons]
      rw [hf] at hfar ⊢
      simpa [processBatch, List.countP_append, List.countP_cons, isEndItem,
             StreamElement.map] using ih mfar mterm hfar
    · have hf : countFAR (.Watermark ts :: rest) = countFAR rest := by
        simp [countFAR, List.countP_cons]
      rw [hf] at hfar ⊢
      simpa [processBatch, List.countP_append, List.countP_cons, isEndItem,
             StreamElement.map] using ih mfar mterm hfar
    · have hf : countFAR (.FlushBatch :: rest) = countFAR rest := by
        simp [countFAR, List.countP_cons]
      rw [hf] at hfar ⊢
      simpa [processBatch, List.countP_append, List.countP_cons, isEndItem,
             StreamElement.map] using ih mfar mterm hfar
    · -- FlushAndRestart
      have hf : countFAR (.FlushAndRestart :: rest) = countFAR rest + 1 := by
        simp [countFAR, List.countP_cons]
      rw [hf] at hfar ⊢
      have hpos : 0 < mfar := by omega
      by_cases hz : mfar - 1 = 0
      · have hm1 : mfar = 1 := by omega
        subst hm1
        have hc0 : ¬(0 < 0 ∧ countFAR rest = 0) := by omega
        have hrec := ih 0 mterm (by omega)
        rw [if_neg hc0] at hrec
        have hcond : 0 < 1 ∧ countFAR rest + 1 = 1 := by omega
        rw [if_pos hcond]
        rw [show (processBatch cached wrap endEl 1 mterm
              (.FlushAndRestart :: rest)).2.2
            = .Item endEl :: .FlushAndRestart
              :: (processBatch cached wrap endEl 0 mterm rest).2.2 from by
          simp [processBatch, StreamElement.map]]
        simp [List.countP_cons, isEndItem, hrec]
      · have hrec := ih (mfar - 1) mterm (by omega)
        rw [show (processBatch cached wrap endEl mfar mterm
              (.FlushAndRestart :: rest)).2.2
            = .FlushAndRestart
              :: (processBatch cached wrap endEl (mfar - 1) mterm rest).2.2
            from by simp [processBatch, hz, StreamElement.map]]
        rw [show ((.FlushAndRestart
              :: (processBatch cached wrap endEl (mfar - 1) mterm rest).2.2)
              : List (StreamElement θ)).countP (isEndItem endEl)
            = (processBatch cached wrap endEl (mfar - 1) mterm
                rest).2.2.countP (isEndItem endEl) from by
          simp [List.countP_cons, isEndItem]]
        rw [hrec]
        split_ifs with h1 h2 <;> omega
    · have hf : countFAR (.Terminate :: rest) = countFAR rest := by
        simp [countFAR, List.countP_cons]
      rw [hf] at hfar ⊢
      cases cached <;>
        simpa [processBatch, List.countP_append, List.countP_cons, isEndItem,
               StreamElement.map] using ih mfar (mterm - 1) hfar

theorem processBatch_no_terminate (wrap : Out → θ) (endEl : θ) :
    ∀ (msg : List (StreamElement Out)) (mfar mterm : Nat),
    (.Terminate : StreamElement θ)
      ∉ (processBatch true wrap endEl mfar mterm msg).2.2 := by
  intro msg
  induction msg with
  | nil => intro mfar mterm; simp [processBatch]
  | cons e rest ih =>
    intro mfar mterm
    rcases e with x | ⟨x, ts⟩ | ts | _ | _ | _
    · simpa [processBatch, StreamElement.map] using ih mfar mterm
    · simpa [processBatch, StreamElement.map] using ih mfar mterm
    · simpa [processBatch, StreamElement.map] using ih mfar mterm
    · simpa [processBatch, StreamElement.map] using ih mfar mterm
    · by_cases hz : mfar - 1 = 0 <;>
        simpa [processBatch, hz, StreamElement.map]
          using ih (mfar - 1) mterm
    · simpa [processBatch, StreamElement.map] using ih mfar (mterm - 1)

/-- Claim C5: for every batch processed by
`BinaryStartReceiver::process_side` (given the protocol bound that the batch
carries at most `missing_flush_and_restart` many `FlushAndRestart`s):
each `FlushAndRestart` and `Terminate` decrements its countdown; removing
the synthesized end markers leaves exactly the input elements — minus the
`Terminate`s when the side is cached — with every data payload wrapped by
the side's constructor; the end marker `Item(endEl)` occurs exactly once
when the countdown reaches zero in this batch (and never otherwise), always
immediately before the `FlushAndRestart` that zeroed it; and on a cached
side the produced batch is appended to the cache and contains no
`Terminate`. -/
theorem C5_process_side_walk (Out θ : Type) [DecidableEq θ]
    (side : SideReceiver Out θ) (msg : List (StreamElement Out))
    (wrap : Out → θ) (endEl : θ) (hne : ∀ x, wrap x ≠ endEl)
    (hfar : countFAR msg ≤ side.missing_flush_and_restart) :
    (process_side side msg wrap endEl).1.missing_flush_and_restart
        = side.missing_flush_and_restart - countFAR msg
    ∧ (process_side side msg wrap endEl).1.missing_terminate
        = side.missing_terminate - countTerm msg
    ∧ (process_side side msg wrap endEl).2.filter (fun e => !isEndItem endEl e)
        = (if side.cached then
            msg.filter (fun e => match e with | .Terminate => false | _ => true)
           else msg).map (StreamElement.map wrap)
    ∧ goodSeq endEl (process_side side msg wrap endEl).2
    ∧ (process_side side msg wrap endEl).2.countP (isEndItem endEl)
        = (if 0 < side.missing_flush_and_restart
              ∧ countFAR msg = side.missing_flush_and_restart then 1 else 0)
    ∧ (side.cached = true →
        (.Terminate : StreamElement θ) ∉ (process_side side msg wrap endEl).2
        ∧ (process_side side msg wrap endEl).1.cache
            = side.cache ++ [(process_side side msg wrap endEl).2])
    ∧ (side.cached = false →
        (process_side side msg wrap endEl).1.cache = side.cache) := by
  have hcnt := processBatch_counters side.cached wrap endEl msg
    side.missing_flush_and_restart side.missing_terminate
  have hout2 : (process_side side msg wrap endEl).2
      = (processBatch side.cached wrap endEl side.missing_flush_and_restart
          side.missing_terminate msg).2.2 := by
    unfold process_side
    by_cases hc : side.cached <;> simp [hc]
  have hmfar : (process_side side msg wrap endEl).1.missing_flush_and_restart
      = (processBatch side.cached wrap endEl side.missing_flush_and_restart
          side.missing_terminate msg).1 := by
    unfold process_side
    by_cases hc : side.cached <;> simp [hc]
  have hmterm : (process_side side msg wrap endEl).1.missing_terminate
      = (processBatch side.cached wrap endEl side.missing_flush_and_restart
          side.missing_terminate msg).2.1 := by
    unfold process_side
    by_cases hc : side.cached <;> simp [hc]
  refine ⟨hmfar.trans hcnt.1, hmterm.trans hcnt.2, ?_, ?_, ?_, ?_, ?_⟩
  · rw [hout2]
    exact processBatch_filter side.cached wrap endEl hne msg
      side.missing_flush_and_restart side.missing_terminate
  · rw [hout2]
    exact processBatch_goodSeq side.cached wrap endEl hne msg
      side.missing_flush_and_restart side.missing_terminate
  · rw [hout2]
    exact processBatch_endCount side.cached wrap endEl hne msg
      side.missing_flush_and_restart side.missing_terminate hfar
  · intro hc
    constructor
    · rw [hout2, hc]
      exact processBatch_no_terminate wrap endEl msg
        side.missing_flush_and_restart side.missing_terminate
    · rw [hout2]
      unfold process_side
      simp [hc]
  · intro hc
    unfold process_side
    simp [hc]

/-- A concrete cached left side with one pending `FlushAndRestart`, used to
witness C5. -/
def c5Side : SideReceiver Nat (BinaryElement Nat Nat) :=
  { queue := [], instances := 1, missing_flush_and_restart := 1,
    missing_terminate := 1, cached := true, cache := [],
    cache_full := false, cache_pointer := 0 }

/-- Witness for C5 on a concrete cached left side receiving
`[Item 1, FlushAndRestart]` with one pending `FlushAndRestart`: the
countdown reaches zero and exactly one `Item LeftEnd` marker is produced. -/
theorem C5_process_side_walk_witness :
    (process_side c5Side [.Item 1, .FlushAndRestart]
        BinaryElement.Left BinaryElement.LeftEnd).2.countP
      (isEndItem BinaryElement.LeftEnd) = 1 := by
  have h := (C5_process_side_walk Nat (BinaryElement Nat Nat) c5Side
    [.Item 1, .FlushAndRestart] BinaryElement.Left BinaryElement.LeftEnd
    (fun x h => BinaryElement.noConfusion h) (by decide)).2.2.2.2.1
  rw [h]
  decide
